import Mathlib

/-!
# Shallow embedding of the pos-panaderia checkout core

This file embeds the cart/checkout/balance core of the point-of-sale page
(the current version of the page component in the source tree: types and
utilities, the `POSTab` cart operations `addByCode`, `changeQty`,
`removeItem`, `cancelAll`, `undo`, the `cobrar` checkout transaction, the
`PanModal` untracked-item flow, and the `BalanceTab` daily grouping).

Modelling conventions:
* JS `number` is modelled as `ℚ` (all money/stock arithmetic in the source
  is on small exact values; `Math.round` is `⌊x + 1/2⌋`).
* `string` is `String`; JS `===` on strings is `String` equality.
* The Firestore product collection is a list of products keyed by `code`
  (documents are created at `doc(db, "products", code)`), read with `find?`.
* The client catalog snapshot `productsMap = new Map(products.map(p=>[p.code,p]))`
  keeps the last binding of a duplicated key, modelled by `mapGet`.
* React state updates become explicit state passing; a `toast.error` followed
  by an early `return` becomes an `Except.error` (the caller keeps the old
  state, which models that no `setCart`/`setUndoStack` ran).
* Firestore's `runTransaction` is modelled by a function from the pre-state
  of the store to either an error (no writes) or the post-state (all writes).
-/

set_option maxRecDepth 10000

deriving instance DecidableEq for Except

namespace POS

/-- JS `Math.round` on a rational: round half toward positive infinity. -/
def jsRound (q : ℚ) : ℚ := ((q + 1/2).floor : ℤ)

/-- `calcPrice(cost, margin) = Math.round(cost * (1 + margin / 100))`. -/
def calcPrice (cost margin : ℚ) : ℚ := jsRound (cost * (1 + margin / 100))

/-- `Product` document: `{code, name, cost, margin, stock, lowThreshold?}`
(the optional `lowThreshold` plays no role in the claims). -/
structure Product where
  code : String
  name : String
  cost : ℚ
  margin : ℚ
  stock : ℚ
  deriving DecidableEq, Repr

/-- `SaleItem = { code, name, qty, price, costAtSale? }`. Cart lines have
`costAtSale` unset (`none`); the checkout stamps it. -/
structure SaleItem where
  code : String
  name : String
  price : ℚ
  qty : ℚ
  costAtSale : Option ℚ := none
  deriving DecidableEq, Repr

/-- An undo-stack entry `{ type: "add", code, qty }` (the only kind pushed). -/
structure UndoEntry where
  code : String
  qty : ℚ
  deriving DecidableEq, Repr

/-- A persisted `Sale` record as written by `cobrar`'s `tx.set`
(`at`/`id` timestamps play no role in the claims; `localDate` is optional in
the stored data and defaulted during balance grouping). -/
structure SaleRecord where
  localDate : Option String
  user : String
  items : List SaleItem
  total : ℚ
  deriving DecidableEq, Repr

/-- `productsMap.get(c)` where `productsMap = new Map(products.map(p=>[p.code,p]))`:
a JS `Map` built from a list keeps the **last** binding of a duplicated key. -/
def mapGet (ps : List Product) (c : String) : Option Product :=
  ps.foldl (fun acc p => if p.code = c then some p else acc) none

/-- `cart.find(i => i.code === c)?.qty || 0`. -/
def existingQtyFor (cart : List SaleItem) (c : String) : ℚ :=
  ((cart.find? (fun i => i.code == c)).map SaleItem.qty).getD 0

/-- The cart-update closure of `addByCode` when `findIndex` hits: copy the
list and add `q` to the quantity of the **first** line whose code is `c`. -/
def addQtyToFirst (c : String) (q : ℚ) : List SaleItem → List SaleItem
  | [] => []
  | i :: rest =>
    if i.code = c then { i with qty := i.qty + q } :: rest
    else i :: addQtyToFirst c q rest

/-- Errors surfaced by the cart mutation helpers (`toast.error` + early return). -/
inductive CartError where
  | unknownProduct
  | insufficientStock (name : String)
  deriving DecidableEq, Repr

/-- The `POSTab` local state touched by the cart helpers. -/
structure CartState where
  cart : List SaleItem
  undoStack : List UndoEntry
  deriving DecidableEq, Repr

/-- `addByCode(code, qty)` of the current `POSTab`:
looks up the **trimmed** code in the snapshot, pre-checks
`existingQty + qty > (prod.stock || 0)`, then merges into the first line with
the product's code or prepends a new line, and pushes `{type:"add", code, qty}`
with the **raw** `code` argument. -/
def addByCode (products : List Product) (st : CartState) (code : String) (qty : ℚ) :
    Except CartError CartState :=
  match mapGet products code.trim with
  | none => .error .unknownProduct
  | some prod =>
    if prod.stock < existingQtyFor st.cart prod.code + qty then
      .error (.insufficientStock prod.name)
    else
      let price := calcPrice prod.cost prod.margin
      let newCart :=
        if st.cart.any (fun i => i.code == prod.code) then
          addQtyToFirst prod.code qty st.cart
        else
          { code := prod.code, name := prod.name, price := price, qty := qty } :: st.cart
      .ok { cart := newCart, undoStack := { code := code, qty := qty } :: st.undoStack }

/-- The UI view of `addByCode`: on a failure the early `return` leaves the
React state untouched. -/
def addByCodeUI (products : List Product) (st : CartState) (code : String) (qty : ℚ) :
    CartState :=
  match addByCode products st code qty with
  | .error _ => st
  | .ok st' => st'

/-- `changeQty(code, qty)` of the current `POSTab` (defined there but not
referenced by the quantity input, which uses the inline handler modelled by
`qtyOnChange` below): silently returns when the code is not in the snapshot,
clamps to `≥ 1`, rejects quantities above the known stock, otherwise sets the
quantity of every line with that code. -/
def changeQty (products : List Product) (cart : List SaleItem) (code : String) (qty : ℚ) :
    List SaleItem :=
  match mapGet products code with
  | none => cart
  | some prod =>
    let q := max 1 qty
    if prod.stock < q then cart
    else cart.map (fun i => if i.code = code then { i with qty := q } else i)

/-- The quantity input's inline `onChange` handler in the current `POSTab`,
acting on the row at position `idx` (JS object identity `x === i` picks out
exactly that row): clamps to `≥ 1`; for non-`"PAN"` rows whose product is in
the snapshot it rejects values above `(prod.stock || 0)`; otherwise sets the
row's quantity to the clamped value. -/
def qtyOnChange (products : List Product) (cart : List SaleItem) (idx : ℕ) (v : ℚ) :
    Except CartError (List SaleItem) :=
  match cart[idx]? with
  | none => .ok cart
  | some i =>
    let val := max 1 v
    if i.code ≠ "PAN" then
      match mapGet products i.code with
      | some prod =>
        if prod.stock < val then .error (.insufficientStock prod.name)
        else .ok (cart.set idx { i with qty := val })
      | none => .ok (cart.set idx { i with qty := val })
    else .ok (cart.set idx { i with qty := val })

/-- The UI view of the quantity handler: a failure leaves the cart untouched. -/
def qtyOnChangeUI (products : List Product) (cart : List SaleItem) (idx : ℕ) (v : ℚ) :
    List SaleItem :=
  match qtyOnChange products cart idx v with
  | .error _ => cart
  | .ok cart' => cart'

/-- `removeItem(code)`: `setCart(prev => prev.filter(i => i.code !== code))`. -/
def removeItem (c : String) (cart : List SaleItem) : List SaleItem :=
  cart.filter (fun i => i.code != c)

/-- `cancelAll()`: clears cart and undo stack. -/
def cancelAll : CartState := ⟨[], []⟩

/-- The cart update of `undo()` for a popped `{type:"add", code:c, qty:q}`:
`findIndex` the first line with code `c` (no-op when absent); subtract `q`;
if the new quantity is `≤ 0`, `filter` away **every** line with code `c`,
otherwise set the new quantity on that line. (The head of the list is the
first index, so walking the list mirrors `findIndex` + `set`/`filter`: the
skipped prefix contains no line with code `c` and survives the filter.) -/
def undoApplyAdd (c : String) (q : ℚ) : List SaleItem → List SaleItem
  | [] => []
  | i :: rest =>
    if i.code = c then
      if i.qty - q ≤ 0 then (i :: rest).filter (fun j => j.code != c)
      else { i with qty := i.qty - q } :: rest
    else i :: undoApplyAdd c q rest

/-- `undo()`: no-op on an empty stack; otherwise pop the most recent entry
(all pushed entries have `type === "add"`) and apply its inverse to the cart. -/
def undo (st : CartState) : CartState :=
  match st.undoStack with
  | [] => st
  | last :: rest => { cart := undoApplyAdd last.code last.qty st.cart, undoStack := rest }

/-- `PanModal.confirmar`'s derived price in "peso" mode:
`Math.round((g / 1000) * pricePerKg)`. -/
def gramsToPrice (g pricePerKg : ℚ) : ℚ := jsRound (g / 1000 * pricePerKg)

/-- The `onAdd` callback wired to `PanModal` in `POSTab`:
prepend an untracked line `{code:"PAN", name:"Pan", price, qty:1}`.
Only `setCart` runs — the undo stack is not touched. -/
def addUntracked (price : ℚ) (cart : List SaleItem) : List SaleItem :=
  { code := "PAN", name := "Pan", price := price, qty := 1 } :: cart

/-- The two input modes of `PanModal`. -/
inductive PanMode where
  | precio
  | peso
  deriving DecidableEq, Repr

/-- `PanModal.confirmar`: in "precio" mode add the entered price when positive;
in "peso" mode add `gramsToPrice` of the entered grams when positive;
otherwise add nothing. No stock check, no undo entry. -/
def panModalAdd (mode : PanMode) (entered grams pricePerKg : ℚ) (st : CartState) :
    CartState :=
  match mode with
  | .precio =>
    if 0 < entered then { st with cart := addUntracked entered st.cart } else st
  | .peso =>
    if 0 < grams then
      { st with cart := addUntracked (gramsToPrice grams pricePerKg) st.cart }
    else st

/-- Failure conditions of `cobrar`: the early empty-cart return and the two
`throw new Error(...)` validation failures inside the transaction. -/
inductive CobrarError where
  | emptyCart
  | productNotFound (code : String)
  | insufficientStock (name : String)
  deriving DecidableEq, Repr

/-- A transactional read `tx.get(doc(db, "products", c))`: the product
collection is keyed by `code`, so look up the document with that code. -/
def storeGet (store : List Product) (c : String) : Option Product :=
  store.find? (fun p => p.code == c)

/-- Steps 1–2 of `cobrar`'s transaction body: walk the cart in order; a
`"PAN"` item gets `costAtSale = 0` with no read; any other item is validated
against its freshly read document — missing document throws
`Producto no encontrado`, `(p.stock || 0) < item.qty` throws
`Stock insuficiente` — and gets `costAtSale = Number(p.cost || 0)`.
The JS `map` throws at the first offending item. -/
def validateItems (store : List Product) : List SaleItem → Except CobrarError (List SaleItem)
  | [] => .ok []
  | it :: rest =>
    if it.code = "PAN" then
      (validateItems store rest).map (fun l => { it with costAtSale := some 0 } :: l)
    else
      match storeGet store it.code with
      | none => .error (.productNotFound it.code)
      | some p =>
        if p.stock < it.qty then .error (.insufficientStock p.name)
        else (validateItems store rest).map (fun l => { it with costAtSale := some p.cost } :: l)

/-- `tx.update(ref_c, { stock: v })`: replace the stock of the document with
code `c`. -/
def setStockAll (store : List Product) (c : String) (v : ℚ) : List Product :=
  store.map (fun p => if p.code = c then { p with stock := v } else p)

/-- Step 3 of the transaction body: for each non-`"PAN"` cart item in order,
write `stock := (p.stock || 0) - item.qty` where `p` is the snapshot read
from the transaction's pre-state `store0` (not the evolving write set). -/
def applyStockWritesAux (store0 : List Product) : List Product → List SaleItem → List Product
  | st, [] => st
  | st, it :: rest =>
    applyStockWritesAux store0
      (if it.code = "PAN" then st
       else
         match storeGet store0 it.code with
         | some p => setStockAll st it.code (p.stock - it.qty)
         | none => st)
      rest

/-- All stock writes of one commit, applied to the pre-state. -/
def applyStockWrites (store : List Product) (cart : List SaleItem) : List Product :=
  applyStockWritesAux store store cart

/-- The `total` memo: `cart.reduce((acc, i) => acc + i.price * i.qty, 0)`. -/
def cartTotal (cart : List SaleItem) : ℚ :=
  cart.foldl (fun acc i => acc + i.price * i.qty) 0

/-- The `items` field written by `tx.set`:
`itemsForSale.map(i => ({code, name, qty, price, costAtSale: i.costAtSale ?? 0}))`. -/
def mkSaleItems (items : List SaleItem) : List SaleItem :=
  items.map (fun i => { i with costAtSale := some (i.costAtSale.getD 0) })

/-- `cobrar()`: empty-cart early return, then the transaction body —
validate every line against fresh reads, write the stock decrements, and
append one sale record `{at, localDate, user, items, total}`. An error means
the transaction aborted: no write reaches the store. -/
def cobrar (store : List Product) (sales : List SaleRecord) (cart : List SaleItem)
    (today user : String) : Except CobrarError (List Product × List SaleRecord) :=
  if cart = [] then .error .emptyCart
  else
    (validateItems store cart).map (fun itemsForSale =>
      (applyStockWrites store cart,
       sales ++ [{ localDate := some today, user := user,
                   items := mkSaleItems itemsForSale, total := cartTotal cart }]))

/-- The whole state `cobrar` can touch: the persisted store and sale ledger,
and the local cart and undo stack. -/
structure AppState where
  store : List Product
  sales : List SaleRecord
  cart : List SaleItem
  undoStack : List UndoEntry
  deriving DecidableEq, Repr

/-- The caller-visible effect of `cobrar`: on success the transaction's
writes land and `setCart([])`, `setUndoStack([])` run; the `catch` branch
only toasts, leaving every piece of state as it was. -/
def checkout (st : AppState) (today user : String) : AppState :=
  match cobrar st.store st.sales st.cart today user with
  | .error _ => st
  | .ok (store2, sales2) => { store := store2, sales := sales2, cart := [], undoStack := [] }

/-- One row of the `BalanceTab` accumulator `{cost, profit, total}`. -/
structure DayAcc where
  cost : ℚ
  profit : ℚ
  total : ℚ
  deriving DecidableEq, Repr

/-- Componentwise addition of day accumulators. -/
def addAcc (a b : DayAcc) : DayAcc :=
  ⟨a.cost + b.cost, a.profit + b.profit, a.total + b.total⟩

/-- The inner loop of `BalanceTab.grouped` for one sale: fold its items,
accumulating `cost += costAtSale⋅qty`, `profit += rev − cost`,
`total += rev` with `rev = price⋅qty` and `costAtSale ?? 0`. -/
def saleDayAcc (s : SaleRecord) : DayAcc :=
  s.items.foldl
    (fun acc it =>
      let costUnit := it.costAtSale.getD 0
      let rev := it.price * it.qty
      let cost := costUnit * it.qty
      ⟨acc.cost + cost, acc.profit + (rev - cost), acc.total + rev⟩)
    ⟨0, 0, 0⟩

/-- The grouping key: `s.localDate ?? todayLocalDateAR()`. -/
def saleKey (today : String) (s : SaleRecord) : String := s.localDate.getD today

/-- One step of the map-building loop: `map.get(key)`, inserting a fresh zero
accumulator at the end when the key is new (JS `Map.set` appends new keys in
insertion order), then adding the sale's day sums into it. Inserting the zero
accumulator and immediately adding `d` stores exactly `d`. -/
def bumpKey : List (String × DayAcc) → String → DayAcc → List (String × DayAcc)
  | [], k, d => [(k, d)]
  | (k', a) :: rest, k, d =>
    if k' = k then (k', addAcc a d) :: rest else (k', a) :: bumpKey rest k d

/-- The JS `Map` of `BalanceTab.grouped` after folding all sales. -/
def buildBalanceMap (today : String) (sales : List SaleRecord) : List (String × DayAcc) :=
  sales.foldl (fun m s => bumpKey m (saleKey today s) (saleDayAcc s)) []

/-- The Scenario-A catalog: one product, cost 100, margin 50, stock 10. -/
def demoProducts : List Product := [⟨"001", "Producto", 100, 50, 10⟩]

/-- A cart line passes `cobrar`'s authoritative re-validation: it is the
untracked `"PAN"` sentinel, or its product document exists and its persisted
stock covers the requested quantity. -/
def validLine (store : List Product) (j : SaleItem) : Prop :=
  j.code = "PAN" ∨ ∃ p, storeGet store j.code = some p ∧ j.qty ≤ p.stock

instance (store : List Product) (j : SaleItem) : Decidable (validLine store j) := by
  unfold validLine
  cases storeGet store j.code with
  | none =>
    refine decidable_of_iff (j.code = "PAN") ?_
    constructor
    · exact Or.inl
    · rintro (h | ⟨p, hp, _⟩)
      · exact h
      · cases hp
  | some p =>
    refine decidable_of_iff (j.code = "PAN" ∨ j.qty ≤ p.stock) ?_
    constructor
    · rintro (h | h)
      · exact Or.inl h
      · exact Or.inr ⟨p, rfl, h⟩
    · rintro (h | ⟨p', hp', h⟩)
      · exact Or.inl h
      · cases hp'
        exact Or.inr h

/-- The `costAtSale` value stamped by `cobrar` for one cart line: `0` for the
untracked `"PAN"` sentinel, the freshly read document's `cost` otherwise. -/
def stampCost (store : List Product) (it : SaleItem) : ℚ :=
  if it.code = "PAN" then 0 else ((storeGet store it.code).map Product.cost).getD 0

/-- The codes of the tracked (non-`"PAN"`) lines of a cart, in order. -/
def trackedCodes (cart : List SaleItem) : List String :=
  (cart.filter (fun i => i.code != "PAN")).map (fun i => i.code)

/-- Total revenue of one sale record: `Σ price⋅qty` over its items. -/
def saleRevenue (s : SaleRecord) : ℚ :=
  (s.items.map (fun it => it.price * it.qty)).sum

/-- Total cost of one sale record: `Σ (costAtSale ?? 0)⋅qty` over its items. -/
def saleCost (s : SaleRecord) : ℚ :=
  (s.items.map (fun it => it.costAtSale.getD 0 * it.qty)).sum

/-- The sort order of `Array.from(map.entries()).sort((a,b)=> a[0] < b[0] ? 1 : -1)`:
`a` may stay before `b` exactly when the comparator is negative, i.e. when
`¬(a.1 < b.1)` — descending by date key. -/
def balOrd (a b : String × DayAcc) : Prop := b.1 ≤ a.1

instance : DecidableRel balOrd := fun a b => inferInstanceAs (Decidable (b.1 ≤ a.1))

instance : IsTotal (String × DayAcc) balOrd := ⟨fun a b => le_total b.1 a.1⟩

instance : IsTrans (String × DayAcc) balOrd := ⟨fun _ _ _ h h' => le_trans h' h⟩

/-- `BalanceTab.grouped`: the balance map's entries sorted descending by
date key (the keys are pairwise distinct, so the comparator determines the
result uniquely; we realise it with insertion sort). -/
def grouped (today : String) (sales : List SaleRecord) : List (String × DayAcc) :=
  List.insertionSort balOrd (buildBalanceMap today sales)

/-- Day accumulators add componentwise and start at zero; this is the
commutative-monoid structure under which the grouping loop's sums live. -/
instance : Zero DayAcc := ⟨⟨0, 0, 0⟩⟩

instance : Add DayAcc := ⟨addAcc⟩

instance : AddCommMonoid DayAcc where
  add := (· + ·)
  zero := 0
  nsmul := nsmulRec
  add_assoc a b c := by
    obtain ⟨a1, a2, a3⟩ := a
    obtain ⟨b1, b2, b3⟩ := b
    obtain ⟨c1, c2, c3⟩ := c
    show addAcc (addAcc _ _) _ = addAcc _ (addAcc _ _)
    simp [addAcc, add_assoc]
  zero_add a := by
    obtain ⟨a1, a2, a3⟩ := a
    show addAcc ⟨0, 0, 0⟩ _ = _
    simp [addAcc]
  add_zero a := by
    obtain ⟨a1, a2, a3⟩ := a
    show addAcc _ ⟨0, 0, 0⟩ = _
    simp [addAcc]
  add_comm a b := by
    obtain ⟨a1, a2, a3⟩ := a
    obtain ⟨b1, b2, b3⟩ := b
    show addAcc _ _ = addAcc _ _
    simp [addAcc, add_comm]

/-- Lookup in the association-list model of the JS `Map`. -/
def alookup (m : List (String × DayAcc)) (k : String) : Option DayAcc :=
  (m.find? (fun e => e.1 == k)).map Prod.snd

/-- The keys of the association-list model, in insertion order. -/
def keysOf (m : List (String × DayAcc)) : List String := m.map Prod.fst

/-- The day total a correct grouping assigns to date `d`: the sum of the
per-sale accumulators over the sales whose key is `d`. -/
def dayAccOf (today : String) (d : String) (sales : List SaleRecord) : DayAcc :=
  ((sales.filter (fun s => saleKey today s == d)).map saleDayAcc).sum

/-- Strictly-descending-by-date order on balance rows; on the pairwise
distinct keys of the grouping map it coincides with the JS comparator's
order and pins the sorted result down uniquely. -/
def balStrict (a b : String × DayAcc) : Prop := b.1 < a.1

instance : IsAntisymm (String × DayAcc) balStrict :=
  ⟨fun _ _ h1 h2 => absurd h2 (lt_asymm h1)⟩

/-- A concrete committed sale (2 units at 150, cost 100) for witnesses. -/
def demoSale1 : SaleRecord := ⟨some "2026-10-10", "u", [⟨"001", "P", 150, 2, some 100⟩], 300⟩

/-- A concrete committed untracked sale (one PAN at 800) for witnesses. -/
def demoSale2 : SaleRecord := ⟨some "2026-10-11", "u", [⟨"PAN", "Pan", 800, 1, some 0⟩], 800⟩

/-! ### Supporting lemmas -/

theorem mapGet_foldl_aux {c : String} {p : Product} :
    ∀ (ps : List Product) (acc : Option Product),
      ps.foldl (fun acc q => if q.code = c then some q else acc) acc = some p →
      (p.code = c ∧ p ∈ ps) ∨ acc = some p := by
  intro ps
  induction ps with
  | nil => intro acc h; exact Or.inr h
  | cons q rest ih =>
    intro acc h
    rcases ih _ h with h1 | h2
    · exact Or.inl ⟨h1.1, List.mem_cons_of_mem _ h1.2⟩
    · by_cases hq : q.code = c
      · simp only [if_pos hq] at h2
        cases h2
        exact Or.inl ⟨hq, List.mem_cons_self _ _⟩
      · simp only [if_neg hq] at h2
        exact Or.inr h2

theorem mapGet_code {ps : List Product} {c : String} {p : Product}
    (h : mapGet ps c = some p) : p.code = c := by
  rcases mapGet_foldl_aux ps none h with h1 | h2
  · exact h1.1
  · cases h2

theorem mapGet_mem {ps : List Product} {c : String} {p : Product}
    (h : mapGet ps c = some p) : p ∈ ps := by
  rcases mapGet_foldl_aux ps none h with h1 | h2
  · exact h1.2
  · cases h2

theorem storeGet_code {s : List Product} {c : String} {p : Product}
    (h : storeGet s c = some p) : p.code = c := by
  have := List.find?_some h
  simpa using this

theorem storeGet_mem {s : List Product} {c : String} {p : Product}
    (h : storeGet s c = some p) : p ∈ s :=
  List.mem_of_find?_eq_some h

theorem foldl_add_sum {α : Type} (f : α → ℚ) :
    ∀ (l : List α) (a : ℚ), l.foldl (fun acc i => acc + f i) a = a + (l.map f).sum := by
  intro l
  induction l with
  | nil => intro a; simp
  | cons x xs ih => intro a; simp [ih, add_assoc]

theorem cartTotal_eq_sum (cart : List SaleItem) :
    cartTotal cart = (cart.map (fun i => i.price * i.qty)).sum := by
  simpa using foldl_add_sum (fun i : SaleItem => i.price * i.qty) cart 0

/-! ### C10: removeLine removes every line with the code -/

/-- C10: `removeLine(code)` removes **every** cart line whose code equals the
given code: membership in the result is membership in the cart with a
different code, the result is a sublist (other lines untouched, in order),
a cart without the code is left unchanged, and removing `"PAN"` after two
separate untracked additions removes both added lines at once. -/
theorem removeItem_removes_all_matching :
    (∀ (c : String) (cart : List SaleItem) (i : SaleItem),
        i ∈ removeItem c cart ↔ i ∈ cart ∧ i.code ≠ c) ∧
    (∀ (c : String) (cart : List SaleItem), (removeItem c cart).Sublist cart) ∧
    (∀ (c : String) (cart : List SaleItem), (∀ i ∈ cart, i.code ≠ c) →
        removeItem c cart = cart) ∧
    (∀ (st : CartState) (p1 p2 : ℚ), 0 < p1 → 0 < p2 →
        removeItem "PAN" ((panModalAdd .precio p2 0 0 (panModalAdd .precio p1 0 0 st)).cart)
          = removeItem "PAN" st.cart) := by
  refine ⟨?_, ?_, ?_, ?_⟩
  · intro c cart i
    simp [removeItem, List.mem_filter]
  · intro c cart
    exact List.filter_sublist _
  · intro c cart h
    refine List.filter_eq_self.mpr ?_
    intro i hi
    simpa using h i hi
  · intro st p1 p2 h1 h2
    simp [panModalAdd, if_pos h1, if_pos h2, addUntracked, removeItem]

/-- Witness for `removeItem_removes_all_matching` at a concrete cart:
two untracked additions (prices 800 and 500) on top of a tracked line, then
one `removeItem "PAN"` leaves exactly the tracked line. -/
theorem removeItem_removes_all_matching_witness :
    (0 : ℚ) < 800 ∧ (0 : ℚ) < 500 ∧
    removeItem "PAN"
        ((panModalAdd .precio 500 0 0 (panModalAdd .precio 800 0 0
          ⟨[⟨"001", "Producto", 150, 1, none⟩], []⟩)).cart)
      = removeItem "PAN" (⟨[⟨"001", "Producto", 150, 1, none⟩], []⟩ : CartState).cart := by
  refine ⟨by norm_num, by norm_num, ?_⟩
  exact (removeItem_removes_all_matching).2.2.2 ⟨[⟨"001", "Producto", 150, 1, none⟩], []⟩
    800 500 (by norm_num) (by norm_num)

/-! ### C3: empty cart and failed commits -/

/-- C3: committing an empty cart fails with `EmptyCart`; every failed commit
leaves the whole state (store, ledger, cart lines, undo stack) exactly as it
was; a successful commit clears the cart and the undo stack. -/
theorem cobrar_empty_and_failure (st : AppState) (today user : String) :
    (st.cart = [] → cobrar st.store st.sales st.cart today user = .error .emptyCart) ∧
    (∀ e, cobrar st.store st.sales st.cart today user = .error e →
        checkout st today user = st) ∧
    (∀ r, cobrar st.store st.sales st.cart today user = .ok r →
        (checkout st today user).cart = [] ∧ (checkout st today user).undoStack = []) := by
  refine ⟨?_, ?_, ?_⟩
  · intro h
    simp [cobrar, h]
  · intro e h
    simp [checkout, h]
  · intro r h
    obtain ⟨s2, l2⟩ := r
    simp [checkout, h]

/-- Witness for `cobrar_empty_and_failure`: the concrete empty-cart state has
its commit fail with `EmptyCart` and is left untouched. -/
theorem cobrar_empty_and_failure_witness :
    cobrar ([⟨"001", "Producto", 100, 50, 10⟩] : List Product) [] [] "2026-10-11" "u"
        = .error .emptyCart ∧
    checkout ⟨[⟨"001", "Producto", 100, 50, 10⟩], [], [], []⟩ "2026-10-11" "u"
        = ⟨[⟨"001", "Producto", 100, 50, 10⟩], [], [], []⟩ := by
  have h := cobrar_empty_and_failure ⟨[⟨"001", "Producto", 100, 50, 10⟩], [], [], []⟩
    "2026-10-11" "u"
  have h1 := h.1 rfl
  exact ⟨h1, h.2.1 _ h1⟩

/-! ### C7: quantity changes via the POS quantity input -/

/-- C7: the quantity input's handler clamps the entered value to at least 1;
for a tracked row whose product is in the snapshot it fails with
`InsufficientStock` — leaving the cart unchanged — exactly when the clamped
value exceeds the known stock, and otherwise writes the clamped value; an
untracked (`"PAN"`) row is never capacity-checked, so the write always
succeeds. (In the current `POSTab` the quantity input uses this inline
handler; the standalone `changeQty` helper is not referenced by the UI.) -/
theorem qtyOnChange_spec (products : List Product) (cart : List SaleItem) (idx : ℕ)
    (v : ℚ) (i : SaleItem) (hidx : cart[idx]? = some i) :
    (1 : ℚ) ≤ max 1 v ∧
    (i.code = "PAN" →
      qtyOnChange products cart idx v = .ok (cart.set idx { i with qty := max 1 v })) ∧
    (i.code ≠ "PAN" → ∀ prod, mapGet products i.code = some prod →
      (prod.stock < max 1 v →
        qtyOnChange products cart idx v = .error (.insufficientStock prod.name) ∧
        qtyOnChangeUI products cart idx v = cart) ∧
      (max 1 v ≤ prod.stock →
        qtyOnChange products cart idx v = .ok (cart.set idx { i with qty := max 1 v }))) ∧
    (i.code ≠ "PAN" → mapGet products i.code = none →
      qtyOnChange products cart idx v = .ok (cart.set idx { i with qty := max 1 v })) := by
  refine ⟨le_max_left 1 v, ?_, ?_, ?_⟩
  · intro hpan
    simp [qtyOnChange, hidx, hpan]
  · intro hnp prod hm
    constructor
    · intro hlt
      have herr : qtyOnChange products cart idx v = .error (.insufficientStock prod.name) := by
        simp [qtyOnChange, hidx, hnp, hm, hlt]
      exact ⟨herr, by simp [qtyOnChangeUI, herr]⟩
    · intro hle
      simp [qtyOnChange, hidx, hnp, hm, not_lt.mpr hle]
  · intro hnp hm
    simp [qtyOnChange, hidx, hnp, hm]

/-- Witness for `qtyOnChange_spec`: concrete cart with an untracked row at
index 0; the handler sets its quantity to the clamped value 2. -/
theorem qtyOnChange_spec_witness :
    ([⟨"PAN", "Pan", 800, 1, none⟩] : List SaleItem)[0]? = some ⟨"PAN", "Pan", 800, 1, none⟩ ∧
    qtyOnChange [⟨"001", "Producto", 100, 50, 10⟩] [⟨"PAN", "Pan", 800, 1, none⟩] 0 2
      = .ok ([⟨"PAN", "Pan", 800, 1, none⟩].set 0 ⟨"PAN", "Pan", 800, max 1 2, none⟩) := by
  refine ⟨rfl, ?_⟩
  exact ((qtyOnChange_spec [⟨"001", "Producto", 100, 50, 10⟩] [⟨"PAN", "Pan", 800, 1, none⟩]
    0 2 ⟨"PAN", "Pan", 800, 1, none⟩ rfl).2.1) rfl

/-! ### addByCode / undo machinery (C5, C6) -/

theorem addByCode_ok {products : List Product} {st : CartState} {code : String}
    {qty : ℚ} {prod : Product} {st' : CartState}
    (hm : mapGet products code.trim = some prod)
    (h : addByCode products st code qty = .ok st') :
    ¬ prod.stock < existingQtyFor st.cart prod.code + qty ∧
    st'.undoStack = { code := code, qty := qty } :: st.undoStack ∧
    st'.cart = (if st.cart.any (fun i => i.code == prod.code)
                then addQtyToFirst prod.code qty st.cart
                else { code := prod.code, name := prod.name,
                       price := calcPrice prod.cost prod.margin, qty := qty,
                       costAtSale := none } :: st.cart) := by
  unfold addByCode at h
  rw [hm] at h
  by_cases hlt : prod.stock < existingQtyFor st.cart prod.code + qty
  · simp [hlt] at h
  · simp only [hlt, if_false] at h
    cases h
    exact ⟨hlt, rfl, rfl⟩

theorem addQtyToFirst_decomp (c : String) (q : ℚ) :
    ∀ (pre : List SaleItem) (l : SaleItem) (post : List SaleItem),
      l.code = c → (∀ i ∈ pre, i.code ≠ c) →
      addQtyToFirst c q (pre ++ l :: post) = pre ++ { l with qty := l.qty + q } :: post := by
  intro pre
  induction pre with
  | nil =>
    intro l post hl _
    simp [addQtyToFirst, hl]
  | cons x xs ih =>
    intro l post hl hpre
    have hx : x.code ≠ c := hpre x (List.mem_cons_self _ _)
    simp only [List.cons_append, addQtyToFirst, if_neg hx, List.append_eq]
    rw [ih l post hl (fun i hi => hpre i (List.mem_cons_of_mem _ hi))]

/-! ### C5: addByCode -/

/-- C5 (amended): `addByCode(code, qty)` looks the **trimmed** code up in the
snapshot — it fails with `UnknownProduct` when the trimmed code is absent,
fails with `InsufficientStock` when the cart's quantity for the product's
code plus `qty` exceeds the product's stock, and a failure leaves the cart
and undo stack unchanged; on success it sums `qty` into the first line
carrying the product's code, or prepends a new line, and pushes one undo
entry recording the **raw** code argument and the quantity. -/
theorem addByCode_spec (products : List Product) (st : CartState) (code : String) (qty : ℚ) :
    (mapGet products code.trim = none →
      addByCode products st code qty = .error .unknownProduct) ∧
    (∀ prod, mapGet products code.trim = some prod →
      prod.stock < existingQtyFor st.cart prod.code + qty →
      addByCode products st code qty = .error (.insufficientStock prod.name)) ∧
    (∀ e, addByCode products st code qty = .error e →
      addByCodeUI products st code qty = st) ∧
    (∀ prod st', mapGet products code.trim = some prod →
      addByCode products st code qty = .ok st' →
      st'.undoStack = { code := code, qty := qty } :: st.undoStack ∧
      ((∀ i ∈ st.cart, i.code ≠ prod.code) →
        st'.cart = { code := prod.code, name := prod.name,
                     price := calcPrice prod.cost prod.margin, qty := qty,
                     costAtSale := none } :: st.cart) ∧
      (∀ pre l post, st.cart = pre ++ l :: post → l.code = prod.code →
        (∀ i ∈ pre, i.code ≠ prod.code) →
        st'.cart = pre ++ { l with qty := l.qty + qty } :: post)) := by
  refine ⟨?_, ?_, ?_, ?_⟩
  · intro h
    unfold addByCode
    rw [h]
  · intro prod hm hlt
    unfold addByCode
    rw [hm]
    simp [hlt]
  · intro e h
    simp [addByCodeUI, h]
  · intro prod st' hm hok
    obtain ⟨hlt, hstack, hcart⟩ := addByCode_ok hm hok
    refine ⟨hstack, ?_, ?_⟩
    · intro hnone
      have hany : st.cart.any (fun i => i.code == prod.code) = false := by
        rw [List.any_eq_false]
        intro i hi
        simpa using hnone i hi
      rw [hcart, hany]
      simp
    · intro pre l post hdecomp hl hpre
      have hmem : l ∈ st.cart := by
        rw [hdecomp]
        simp
      have hany : st.cart.any (fun i => i.code == prod.code) = true :=
        List.any_eq_true.mpr ⟨l, hmem, by simp [hl]⟩
      rw [hcart, if_pos hany, hdecomp]
      exact addQtyToFirst_decomp prod.code qty pre l post hl hpre

/-- Witness for `addByCode_spec`: scanning code `"001"` into an empty cart
prepends one line priced `calcPrice 100 50 = 150` and pushes one undo entry. -/
theorem addByCode_spec_witness :
    mapGet demoProducts ("001").trim = some ⟨"001", "Producto", 100, 50, 10⟩ ∧
    addByCode demoProducts ⟨[], []⟩ "001" 1
        = .ok ⟨[⟨"001", "Producto", 150, 1, none⟩], [⟨"001", 1⟩]⟩ ∧
    (⟨[⟨"001", "Producto", 150, 1, none⟩], [⟨"001", 1⟩]⟩ : CartState).cart
        = { code := "001", name := "Producto", price := calcPrice 100 50, qty := 1,
            costAtSale := none } :: (⟨[], []⟩ : CartState).cart := by
  have hm : mapGet demoProducts ("001").trim = some ⟨"001", "Producto", 100, 50, 10⟩ := by
    with_unfolding_all decide
  have hok : addByCode demoProducts ⟨[], []⟩ "001" 1
      = .ok ⟨[⟨"001", "Producto", 150, 1, none⟩], [⟨"001", 1⟩]⟩ := by
    with_unfolding_all decide
  refine ⟨hm, hok, ?_⟩
  exact (((addByCode_spec demoProducts ⟨[], []⟩ "001" 1).2.2.2 _ _ hm hok).2.1
    (fun i hi => absurd hi (List.not_mem_nil i)))

/-- Counterexample to C5 as frozen: the claim says `addByCode` fails with
`UnknownProduct` whenever the code is not in the catalog snapshot, but the
code `"001 "` (trailing blank) is in no snapshot entry and the call still
succeeds, because the source looks up the trimmed code; the pushed undo
entry records the raw, untrimmed code. -/
theorem addByCode_spec_counterexample :
    (demoProducts.all (fun p => p.code != "001 ")) = true ∧
    addByCode demoProducts ⟨[], []⟩ "001 " 1
        = .ok ⟨[⟨"001", "Producto", 150, 1, none⟩], [⟨"001 ", 1⟩]⟩ := by
  constructor
  · with_unfolding_all decide
  · with_unfolding_all decide

/-! ### C6: undo -/

theorem undoApply_addQty (c : String) (q : ℚ) :
    ∀ cart : List SaleItem, (∀ i ∈ cart, 0 < i.qty) →
      cart.any (fun i => i.code == c) = true →
      undoApplyAdd c q (addQtyToFirst c q cart) = cart := by
  intro cart
  induction cart with
  | nil => intro _ h; simp at h
  | cons i rest ih =>
    intro hpos hany
    obtain ⟨icode, iname, iprice, iqty, ics⟩ := i
    by_cases hic : icode = c
    · have hposi : (0 : ℚ) < iqty := by
        simpa using hpos _ (List.mem_cons_self _ _)
      have hsub : iqty + q - q = iqty := by ring
      simp [addQtyToFirst, undoApplyAdd, hic, hsub, not_le.mpr hposi]
    · have hrest_pos : ∀ j ∈ rest, 0 < j.qty := fun j hj => hpos j (List.mem_cons_of_mem _ hj)
      have hany' : rest.any (fun j => j.code == c) = true := by
        rcases List.any_eq_true.mp hany with ⟨j, hj, hjc⟩
        rcases List.mem_cons.mp hj with rfl | hj'
        · exact absurd (by simpa using hjc) hic
        · exact List.any_eq_true.mpr ⟨j, hj', hjc⟩
      simp [addQtyToFirst, undoApplyAdd, hic, ih hrest_pos hany']

theorem undoApply_prepend (c : String) (q : ℚ) (item : SaleItem) (cart : List SaleItem)
    (hcode : item.code = c) (hq : item.qty = q)
    (hnone : ∀ i ∈ cart, i.code ≠ c) :
    undoApplyAdd c q (item :: cart) = cart := by
  have hle : item.qty - q ≤ 0 := by
    rw [hq]
    simp
  have hfc : (item.code != c) = false := by simp [hcode]
  simp only [undoApplyAdd, if_pos hcode, if_pos hle, List.filter_cons, hfc]
  simp only [Bool.false_eq_true, if_false]
  exact List.filter_eq_self.mpr (fun i hi => by simpa using hnone i hi)

theorem undoApplyAdd_pos (c : String) (q : ℚ) :
    ∀ cart : List SaleItem, (∀ i ∈ cart, 0 < i.qty) →
      ∀ i ∈ undoApplyAdd c q cart, 0 < i.qty := by
  intro cart
  induction cart with
  | nil => intro _ i hi; simp [undoApplyAdd] at hi
  | cons x rest ih =>
    intro hpos i hi
    by_cases hxc : x.code = c
    · by_cases hle : x.qty - q ≤ 0
      · simp only [undoApplyAdd, if_pos hxc, if_pos hle] at hi
        exact hpos i (List.mem_of_mem_filter hi)
      · simp only [undoApplyAdd, if_pos hxc, if_neg hle] at hi
        rcases List.mem_cons.mp hi with rfl | hi'
        · simpa using not_le.mp hle
        · exact hpos i (List.mem_cons_of_mem _ hi')
    · simp only [undoApplyAdd, if_neg hxc] at hi
      rcases List.mem_cons.mp hi with rfl | hi'
      · exact hpos _ (List.mem_cons_self _ _)
      · exact ih (fun j hj => hpos j (List.mem_cons_of_mem _ hj)) i hi'

/-- C6 (amended): for a cart whose lines all have positive quantity and a
code equal to its trimmed form, `undo()` right after a successful
`addByCode(code, qty)` restores the exact pre-add state; `undo()` on an
empty stack changes nothing; and undo preserves positivity of every line's
quantity (it removes a line rather than leaving it at zero or below). -/
theorem undo_inverse_spec :
    (∀ (products : List Product) (st : CartState) (code : String) (qty : ℚ) (st' : CartState),
        code.trim = code → (∀ i ∈ st.cart, 0 < i.qty) →
        addByCode products st code qty = .ok st' → undo st' = st) ∧
    (∀ st : CartState, st.undoStack = [] → undo st = st) ∧
    (∀ st : CartState, (∀ i ∈ st.cart, 0 < i.qty) → ∀ i ∈ (undo st).cart, 0 < i.qty) := by
  refine ⟨?_, ?_, ?_⟩
  · intro products st code qty st' htrim hpos hok
    cases hm : mapGet products code.trim with
    | none =>
      unfold addByCode at hok
      rw [hm] at hok
      cases hok
    | some prod =>
      obtain ⟨hlt, hstack, hcart⟩ := addByCode_ok hm hok
      have hpc : prod.code = code := by
        rw [← htrim]
        exact mapGet_code hm
      obtain ⟨cart0, stack0⟩ := st
      obtain ⟨cart1, stack1⟩ := st'
      simp only at hstack hcart hpos
      subst hstack
      by_cases hany : cart0.any (fun i => i.code == prod.code) = true
      · rw [if_pos hany] at hcart
        subst hcart
        simp only [undo, hpc]
        rw [hpc] at hany
        rw [undoApply_addQty code qty cart0 hpos hany]
      · rw [Bool.not_eq_true] at hany
        rw [hany] at hcart
        simp only [Bool.false_eq_true, if_false] at hcart
        subst hcart
        simp only [undo]
        rw [undoApply_prepend code qty _ cart0 (by simpa using hpc) rfl
          (fun i hi => by
            have := List.any_eq_false.mp hany i hi
            rw [hpc] at this
            simpa using this)]
  · intro st h
    obtain ⟨cart0, stack0⟩ := st
    simp only at h
    subst h
    rfl
  · intro st hpos i hi
    obtain ⟨cart0, stack0⟩ := st
    cases stack0 with
    | nil => exact hpos i (by simpa [undo] using hi)
    | cons e rest =>
      simp only [undo] at hi
      exact undoApplyAdd_pos e.code e.qty cart0 hpos i hi

/-- Witness for `undo_inverse_spec`: undoing the successful scan of `"001"`
into a one-line cart restores that exact cart and stack. -/
theorem undo_inverse_spec_witness :
    ("001" : String).trim = "001" ∧
    addByCode demoProducts ⟨[⟨"001", "Producto", 150, 2, none⟩], [⟨"001", 2⟩]⟩ "001" 1
        = .ok ⟨[⟨"001", "Producto", 150, 3, none⟩], [⟨"001", 1⟩, ⟨"001", 2⟩]⟩ ∧
    undo ⟨[⟨"001", "Producto", 150, 3, none⟩], [⟨"001", 1⟩, ⟨"001", 2⟩]⟩
        = ⟨[⟨"001", "Producto", 150, 2, none⟩], [⟨"001", 2⟩]⟩ := by
  have htrim : ("001" : String).trim = "001" := by with_unfolding_all decide
  have hok : addByCode demoProducts ⟨[⟨"001", "Producto", 150, 2, none⟩], [⟨"001", 2⟩]⟩ "001" 1
      = .ok ⟨[⟨"001", "Producto", 150, 3, none⟩], [⟨"001", 1⟩, ⟨"001", 2⟩]⟩ := by
    with_unfolding_all decide
  refine ⟨htrim, hok, ?_⟩
  exact undo_inverse_spec.1 demoProducts _ "001" 1 _ htrim
    (by intro i hi; simp at hi; rw [hi]; norm_num) hok

/-- Counterexample to C6 as frozen: two reachable situations where `undo()`
right after a successful `addByCode` does **not** restore the pre-add state.
With the raw code `"001 "` (trailing blank) the add succeeds via the trimmed
lookup but the undo entry records the raw code, so `undo()` finds no matching
line and the added line survives; and with a pre-existing zero-quantity line
the merged quantity drops back to zero on undo, so the whole line is removed
instead of the original line being restored. -/
theorem undo_inverse_spec_counterexample :
    (addByCode demoProducts ⟨[], []⟩ "001 " 1
        = .ok ⟨[⟨"001", "Producto", 150, 1, none⟩], [⟨"001 ", 1⟩]⟩ ∧
      undo ⟨[⟨"001", "Producto", 150, 1, none⟩], [⟨"001 ", 1⟩]⟩
        ≠ (⟨[], []⟩ : CartState)) ∧
    (addByCode demoProducts ⟨[⟨"001", "Producto", 150, 0, none⟩], []⟩ "001" 1
        = .ok ⟨[⟨"001", "Producto", 150, 1, none⟩], [⟨"001", 1⟩]⟩ ∧
      undo ⟨[⟨"001", "Producto", 150, 1, none⟩], [⟨"001", 1⟩]⟩
        ≠ (⟨[⟨"001", "Producto", 150, 0, none⟩], []⟩ : CartState)) := by
  refine ⟨⟨?_, ?_⟩, ⟨?_, ?_⟩⟩
  · with_unfolding_all decide
  · with_unfolding_all decide
  · with_unfolding_all decide
  · with_unfolding_all decide

/-! ### Checkout transaction lemmas (C1, C2, C4) -/

theorem validateItems_ok_eq {store : List Product} :
    ∀ {cart items : List SaleItem}, validateItems store cart = .ok items →
      items = cart.map (fun it => { it with costAtSale := some (stampCost store it) }) := by
  intro cart
  induction cart with
  | nil =>
    intro items h
    cases h
    rfl
  | cons it rest ih =>
    intro items h
    unfold validateItems at h
    by_cases hpan : it.code = "PAN"
    · rw [if_pos hpan] at h
      cases hv : validateItems store rest with
      | error e => rw [hv] at h; cases h
      | ok l =>
        rw [hv] at h
        cases h
        simp only [List.map_cons]
        rw [← ih hv]
        simp [stampCost, hpan]
    · rw [if_neg hpan] at h
      cases hs : storeGet store it.code with
      | none => rw [hs] at h; dsimp only at h; cases h
      | some p =>
        rw [hs] at h
        dsimp only at h
        by_cases hlt : p.stock < it.qty
        · rw [if_pos hlt] at h; cases h
        · rw [if_neg hlt] at h
          cases hv : validateItems store rest with
          | error e => rw [hv] at h; cases h
          | ok l =>
            rw [hv] at h
            cases h
            simp only [List.map_cons]
            rw [← ih hv]
            simp [stampCost, hpan, hs]

theorem validateItems_ok_valid {store : List Product} :
    ∀ {cart items : List SaleItem}, validateItems store cart = .ok items →
      ∀ j ∈ cart, validLine store j := by
  intro cart
  induction cart with
  | nil => intro items _ j hj; cases hj
  | cons it rest ih =>
    intro items h j hj
    unfold validateItems at h
    by_cases hpan : it.code = "PAN"
    · rw [if_pos hpan] at h
      cases hv : validateItems store rest with
      | error e => rw [hv] at h; cases h
      | ok l =>
        rcases List.mem_cons.mp hj with rfl | hj'
        · exact Or.inl hpan
        · exact ih hv j hj'
    · rw [if_neg hpan] at h
      cases hs : storeGet store it.code with
      | none => rw [hs] at h; dsimp only at h; cases h
      | some p =>
        rw [hs] at h
        dsimp only at h
        by_cases hlt : p.stock < it.qty
        · rw [if_pos hlt] at h; cases h
        · rw [if_neg hlt] at h
          cases hv : validateItems store rest with
          | error e => rw [hv] at h; cases h
          | ok l =>
            rcases List.mem_cons.mp hj with rfl | hj'
            · exact Or.inr ⟨p, hs, not_lt.mp hlt⟩
            · exact ih hv j hj'

theorem validateItems_cons (store : List Product) (it : SaleItem) (rest : List SaleItem) :
    validateItems store (it :: rest)
      = if it.code = "PAN" then
          (validateItems store rest).map (fun l => { it with costAtSale := some 0 } :: l)
        else
          match storeGet store it.code with
          | none => .error (.productNotFound it.code)
          | some p =>
            if p.stock < it.qty then .error (.insufficientStock p.name)
            else (validateItems store rest).map
              (fun l => { it with costAtSale := some p.cost } :: l) := rfl

theorem validateItems_append_error {store : List Product} :
    ∀ (pre l : List SaleItem), (∀ j ∈ pre, validLine store j) → ∀ (e : CobrarError),
      (validateItems store (pre ++ l) = .error e ↔ validateItems store l = .error e) := by
  intro pre
  induction pre with
  | nil => intro l _ e; rfl
  | cons j pre' ih =>
    intro l hval e
    have hj := hval j (List.mem_cons_self _ _)
    have htail : ∀ k ∈ pre', validLine store k :=
      fun k hk => hval k (List.mem_cons_of_mem _ hk)
    have step :
        validateItems store ((j :: pre') ++ l)
          = (validateItems store (pre' ++ l)).map
              (fun m => { j with costAtSale := some (stampCost store j) } :: m) := by
      by_cases hpan : j.code = "PAN"
      · rw [List.cons_append, validateItems_cons, if_pos hpan]
        simp [stampCost, hpan]
      · rcases hj with hpan' | ⟨p, hp, hle⟩
        · exact absurd hpan' hpan
        · rw [List.cons_append, validateItems_cons, if_neg hpan, hp]
          dsimp only
          rw [if_neg (not_lt.mpr hle)]
          simp [stampCost, hpan, hp]
    rw [step]
    cases hv : validateItems store (pre' ++ l) with
    | error e' =>
      rw [hv] at step
      constructor
      · intro h
        have : e' = e := by
          simpa [Except.map] using h
        rw [← this]
        exact (ih l htail e').mp hv
      · intro h
        have h2 : validateItems store (pre' ++ l) = Except.error e := (ih l htail e).mpr h
        rw [hv] at h2
        cases h2
        simp [Except.map]
    | ok m =>
      constructor
      · intro h
        simp [Except.map] at h
      · intro h
        rw [(ih l htail e).mpr h] at hv
        cases hv

theorem cobrar_ok_elim {store : List Product} {sales : List SaleRecord}
    {cart : List SaleItem} {today user : String} {store2 : List Product}
    {sales2 : List SaleRecord}
    (h : cobrar store sales cart today user = .ok (store2, sales2)) :
    cart ≠ [] ∧ ∃ items, validateItems store cart = .ok items ∧
      store2 = applyStockWrites store cart ∧
      sales2 = sales ++ [{ localDate := some today, user := user,
                           items := mkSaleItems items, total := cartTotal cart }] := by
  unfold cobrar at h
  by_cases hnil : cart = []
  · rw [if_pos hnil] at h
    cases h
  · rw [if_neg hnil] at h
    cases hv : validateItems store cart with
    | error e => rw [hv] at h; cases h
    | ok items =>
      rw [hv] at h
      cases h
      exact ⟨hnil, items, rfl, rfl, rfl⟩

theorem cobrar_error_of_validate {store : List Product} {sales : List SaleRecord}
    {cart : List SaleItem} {today user : String} {e : CobrarError}
    (hne : cart ≠ []) (hv : validateItems store cart = .error e) :
    cobrar store sales cart today user = .error e := by
  unfold cobrar
  rw [if_neg hne, hv]
  rfl

theorem setStockAll_storeGet (st : List Product) (c c' : String) (v : ℚ) :
    storeGet (setStockAll st c v) c'
      = (storeGet st c').map (fun p => if p.code = c then { p with stock := v } else p) := by
  induction st with
  | nil => rfl
  | cons p rest ih =>
    have hcode : (if p.code = c then { p with stock := v } else p).code = p.code := by
      by_cases h : p.code = c <;> simp [h]
    by_cases hp : p.code = c'
    · have h1 : ((if p.code = c then { p with stock := v } else p).code == c') = true := by
        rw [hcode]
        simp [hp]
      have h2 : (p.code == c') = true := by simp [hp]
      simp only [setStockAll, List.map_cons, storeGet, List.find?_cons, h1, h2]
      rfl
    · have h1 : ((if p.code = c then { p with stock := v } else p).code == c') = false := by
        rw [hcode]
        simp [hp]
      have h2 : (p.code == c') = false := by simp [hp]
      simp only [setStockAll, List.map_cons, storeGet, List.find?_cons, h1, h2]
      simpa [storeGet, setStockAll] using ih

theorem applyAux_untouched {store0 : List Product} (c : String) :
    ∀ (cart : List SaleItem) (st : List Product),
      (∀ it ∈ cart, it.code = "PAN" ∨ it.code ≠ c) →
      storeGet (applyStockWritesAux store0 st cart) c = storeGet st c := by
  intro cart
  induction cart with
  | nil => intro st _; rfl
  | cons it rest ih =>
    intro st hc
    have htail : ∀ j ∈ rest, j.code = "PAN" ∨ j.code ≠ c :=
      fun j hj => hc j (List.mem_cons_of_mem _ hj)
    unfold applyStockWritesAux
    by_cases hpan : it.code = "PAN"
    · rw [if_pos hpan]
      exact ih st htail
    · rcases hc it (List.mem_cons_self _ _) with hpan' | hne
      · exact absurd hpan' hpan
      · rw [if_neg hpan]
        cases hs : storeGet store0 it.code with
        | none => exact ih st htail
        | some p =>
          rw [ih _ htail, setStockAll_storeGet]
          cases hq : storeGet st c with
          | none => rfl
          | some q =>
            have hqc : q.code = c := storeGet_code hq
            have : ¬ q.code = it.code := by
              rw [hqc]
              exact fun hh => hne hh.symm
            simp [this]

theorem applyAux_allPan {store0 : List Product} :
    ∀ (cart : List SaleItem) (st : List Product),
      (∀ it ∈ cart, it.code = "PAN") → applyStockWritesAux store0 st cart = st := by
  intro cart
  induction cart with
  | nil => intro st _; rfl
  | cons it rest ih =>
    intro st hall
    unfold applyStockWritesAux
    rw [if_pos (hall it (List.mem_cons_self _ _))]
    exact ih st (fun j hj => hall j (List.mem_cons_of_mem _ hj))

theorem applyAux_target {store0 : List Product} {tcode : String} {p : Product}
    (hp : storeGet store0 tcode = some p) :
    ∀ (pre : List SaleItem) (post : List SaleItem) (it : SaleItem) (st : List Product),
      it.code = tcode → it.code ≠ "PAN" →
      (∀ j ∈ pre, j.code = "PAN" ∨ j.code ≠ tcode) →
      (∀ j ∈ post, j.code = "PAN" ∨ j.code ≠ tcode) →
      storeGet (applyStockWritesAux store0 st (pre ++ it :: post)) tcode
        = (storeGet st tcode).map (fun r => { r with stock := p.stock - it.qty }) := by
  intro pre
  induction pre with
  | nil =>
    intro post it st hcode hpan hpre hpost
    simp only [List.nil_append]
    unfold applyStockWritesAux
    rw [if_neg hpan, hcode, hp]
    rw [applyAux_untouched tcode post _ hpost, setStockAll_storeGet]
    cases hq : storeGet st tcode with
    | none => rfl
    | some r =>
      have hrc : r.code = tcode := storeGet_code hq
      simp [hrc]
  | cons j pre' ih =>
    intro post it st hcode hpan hpre hpost
    have htail : ∀ k ∈ pre', k.code = "PAN" ∨ k.code ≠ tcode :=
      fun k hk => hpre k (List.mem_cons_of_mem _ hk)
    simp only [List.cons_append]
    unfold applyStockWritesAux
    by_cases hjp : j.code = "PAN"
    · rw [if_pos hjp]
      exact ih post it st hcode hpan htail hpost
    · rcases hpre j (List.mem_cons_self _ _) with hjp' | hjne
      · exact absurd hjp' hjp
      · rw [if_neg hjp]
        cases hs : storeGet store0 j.code with
        | none => exact ih post it st hcode hpan htail hpost
        | some pj =>
          rw [ih post it _ hcode hpan htail hpost, setStockAll_storeGet]
          cases hq : storeGet st tcode with
          | none => rfl
          | some r =>
            have hrc : r.code = tcode := storeGet_code hq
            have : ¬ r.code = j.code := by
              rw [hrc]
              exact fun hh => hjne hh.symm
            simp [this]

theorem trackedCodes_append (l1 l2 : List SaleItem) :
    trackedCodes (l1 ++ l2) = trackedCodes l1 ++ trackedCodes l2 := by
  simp [trackedCodes, List.filter_append]

theorem trackedCodes_cons_tracked (it : SaleItem) (l : List SaleItem)
    (h : it.code ≠ "PAN") : trackedCodes (it :: l) = it.code :: trackedCodes l := by
  simp [trackedCodes, List.filter_cons, h]

theorem mem_trackedCodes {cart : List SaleItem} {c : String} :
    c ∈ trackedCodes cart ↔ ∃ j ∈ cart, j.code ≠ "PAN" ∧ j.code = c := by
  simp only [trackedCodes, List.mem_map, List.mem_filter, bne_iff_ne, ne_eq]
  constructor
  · rintro ⟨j, ⟨hj, hjp⟩, hjc⟩
    exact ⟨j, hj, hjp, hjc⟩
  · rintro ⟨j, hj, hjp, hjc⟩
    exact ⟨j, ⟨hj, hjp⟩, hjc⟩

/-- C1: a successful commit of a cart (with pairwise-distinct tracked codes,
as every cart built through `addByCode` has) appends exactly one sale whose
`total` is the sum of `price⋅qty` over all cart lines, and simultaneously
every tracked line's persisted product ends with stock equal to its
freshly-read pre-commit stock minus that line's quantity. -/
theorem cobrar_total_and_stock (store : List Product) (sales : List SaleRecord)
    (cart : List SaleItem) (today user : String) (store2 : List Product)
    (sales2 : List SaleRecord)
    (h : cobrar store sales cart today user = .ok (store2, sales2))
    (hnd : (trackedCodes cart).Nodup) :
    ∃ saleRec, sales2 = sales ++ [saleRec] ∧
      saleRec.total = (cart.map (fun i => i.price * i.qty)).sum ∧
      ∀ it ∈ cart, it.code ≠ "PAN" →
        ∃ p, storeGet store it.code = some p ∧
          storeGet store2 it.code = some { p with stock := p.stock - it.qty } := by
  obtain ⟨hne, items, hv, hstore2, hsales2⟩ := cobrar_ok_elim h
  refine ⟨_, hsales2, cartTotal_eq_sum cart, ?_⟩
  intro it hmem hpan
  have hval := validateItems_ok_valid hv it hmem
  rcases hval with h1 | ⟨p, hp, hle⟩
  · exact absurd h1 hpan
  · refine ⟨p, hp, ?_⟩
    obtain ⟨pre, post, hdecomp⟩ := List.append_of_mem hmem
    rw [hdecomp, trackedCodes_append, trackedCodes_cons_tracked it post hpan] at hnd
    rw [List.nodup_append] at hnd
    have hnotpre : it.code ∉ trackedCodes pre :=
      fun hmem' => hnd.2.2 hmem' (List.mem_cons_self _ _)
    have hnotpost : it.code ∉ trackedCodes post := (List.nodup_cons.mp hnd.2.1).1
    have hpre : ∀ j ∈ pre, j.code = "PAN" ∨ j.code ≠ it.code := by
      intro j hj
      by_cases hjp : j.code = "PAN"
      · exact Or.inl hjp
      · exact Or.inr (fun hce => hnotpre (mem_trackedCodes.mpr ⟨j, hj, hjp, hce⟩))
    have hpost : ∀ j ∈ post, j.code = "PAN" ∨ j.code ≠ it.code := by
      intro j hj
      by_cases hjp : j.code = "PAN"
      · exact Or.inl hjp
      · exact Or.inr (fun hce => hnotpost (mem_trackedCodes.mpr ⟨j, hj, hjp, hce⟩))
    rw [hstore2]
    unfold applyStockWrites
    rw [hdecomp, applyAux_target hp pre post it store rfl hpan hpre hpost, hp]
    rfl

/-- Witness for `cobrar_total_and_stock` at Scenario A: product
`{code "001", cost 100, margin 50, stock 10}`, derived price
`calcPrice 100 50 = 150`, quantity 3: the commit records total `450`,
`costAtSale 100`, and leaves stock `7`. -/
theorem cobrar_total_and_stock_witness :
    (trackedCodes [⟨"001", "Producto", 150, 3, none⟩]).Nodup ∧
    cobrar demoProducts [] [⟨"001", "Producto", 150, 3, none⟩] "2026-10-11" "u"
      = .ok ([⟨"001", "Producto", 100, 50, 7⟩],
             [⟨some "2026-10-11", "u", [⟨"001", "Producto", 150, 3, some 100⟩], 450⟩]) ∧
    calcPrice 100 50 = 150 ∧
    cartTotal [⟨"001", "Producto", 150, 3, none⟩] = 450 ∧
    (∃ saleRec, [(⟨some "2026-10-11", "u", [⟨"001", "Producto", 150, 3, some 100⟩], 450⟩ :
          SaleRecord)] = [] ++ [saleRec] ∧
      saleRec.total = ([(⟨"001", "Producto", 150, 3, none⟩ : SaleItem)].map
        (fun i => i.price * i.qty)).sum ∧
      ∀ it ∈ [(⟨"001", "Producto", 150, 3, none⟩ : SaleItem)], it.code ≠ "PAN" →
        ∃ p, storeGet demoProducts it.code = some p ∧
          storeGet [⟨"001", "Producto", 100, 50, 7⟩] it.code
            = some { p with stock := p.stock - it.qty }) := by
  have hok : cobrar demoProducts [] [⟨"001", "Producto", 150, 3, none⟩] "2026-10-11" "u"
      = .ok ([⟨"001", "Producto", 100, 50, 7⟩],
             [⟨some "2026-10-11", "u", [⟨"001", "Producto", 150, 3, some 100⟩], 450⟩]) := by
    with_unfolding_all decide
  refine ⟨by with_unfolding_all decide, hok, by with_unfolding_all decide,
    by with_unfolding_all decide, ?_⟩
  exact cobrar_total_and_stock demoProducts [] _ "2026-10-11" "u" _ _ hok
    (by with_unfolding_all decide)

/-- C2: inside the commit every tracked line is re-validated against its
freshly read document: with all earlier lines valid, a missing document
fails the commit with `ProductNotFound` and insufficient persisted stock
fails it with `InsufficientStock`; any invalid tracked line makes the commit
fail; and every failed commit leaves the entire state unchanged (no stock
decrement, no sale appended, cart and undo stack intact). -/
theorem cobrar_revalidation (st : AppState) (today user : String) :
    (∀ pre it post, st.cart = pre ++ it :: post → it.code ≠ "PAN" →
      (∀ j ∈ pre, validLine st.store j) →
      (storeGet st.store it.code = none →
        cobrar st.store st.sales st.cart today user = .error (.productNotFound it.code)) ∧
      (∀ p, storeGet st.store it.code = some p → p.stock < it.qty →
        cobrar st.store st.sales st.cart today user = .error (.insufficientStock p.name))) ∧
    (∀ it ∈ st.cart, it.code ≠ "PAN" → ¬ validLine st.store it →
      ∃ e, cobrar st.store st.sales st.cart today user = .error e) ∧
    (∀ e, cobrar st.store st.sales st.cart today user = .error e →
      checkout st today user = st) := by
  refine ⟨?_, ?_, ?_⟩
  · intro pre it post hdecomp hpan hprevalid
    have hne : st.cart ≠ [] := by
      rw [hdecomp]
      simp
    constructor
    · intro hnone
      have hv : validateItems st.store (it :: post) = .error (.productNotFound it.code) := by
        rw [validateItems_cons, if_neg hpan, hnone]
      have hv2 : validateItems st.store st.cart = .error (.productNotFound it.code) := by
        rw [hdecomp]
        exact (validateItems_append_error pre (it :: post) hprevalid _).mpr hv
      exact cobrar_error_of_validate hne hv2
    · intro p hp hlt
      have hv : validateItems st.store (it :: post) = .error (.insufficientStock p.name) := by
        rw [validateItems_cons, if_neg hpan, hp]
        dsimp only
        rw [if_pos hlt]
      have hv2 : validateItems st.store st.cart = .error (.insufficientStock p.name) := by
        rw [hdecomp]
        exact (validateItems_append_error pre (it :: post) hprevalid _).mpr hv
      exact cobrar_error_of_validate hne hv2
  · intro it hmem hpan hnv
    cases hv : validateItems st.store st.cart with
    | ok items => exact absurd (validateItems_ok_valid hv it hmem) hnv
    | error e =>
      have hne : st.cart ≠ [] := by
        intro hc
        rw [hc] at hmem
        exact List.not_mem_nil it hmem
      exact ⟨e, cobrar_error_of_validate hne hv⟩
  · intro e h
    simp [checkout, h]

/-- Witness for `cobrar_revalidation` at Scenario C: persisted stock 1,
requested quantity 3 — the authoritative re-check fails with
`InsufficientStock`, no writes occur, and the persisted stock is still 1. -/
theorem cobrar_revalidation_witness :
    cobrar [⟨"003", "Y", 10, 0, 1⟩] [] [⟨"003", "Y", 10, 3, none⟩] "d" "u"
      = .error (.insufficientStock "Y") ∧
    checkout ⟨[⟨"003", "Y", 10, 0, 1⟩], [], [⟨"003", "Y", 10, 3, none⟩], []⟩ "d" "u"
      = ⟨[⟨"003", "Y", 10, 0, 1⟩], [], [⟨"003", "Y", 10, 3, none⟩], []⟩ ∧
    (storeGet (checkout ⟨[⟨"003", "Y", 10, 0, 1⟩], [], [⟨"003", "Y", 10, 3, none⟩], []⟩
        "d" "u").store "003").map Product.stock = some 1 := by
  have h := cobrar_revalidation ⟨[⟨"003", "Y", 10, 0, 1⟩], [], [⟨"003", "Y", 10, 3, none⟩], []⟩
    "d" "u"
  have herr := (h.1 [] ⟨"003", "Y", 10, 3, none⟩ [] rfl (by with_unfolding_all decide)
      (fun j hj => absurd hj (List.not_mem_nil j))).2
      ⟨"003", "Y", 10, 0, 1⟩ (by with_unfolding_all decide) (by with_unfolding_all decide)
  have hunch := h.2.2 _ herr
  refine ⟨herr, hunch, ?_⟩
  rw [hunch]
  with_unfolding_all decide

/-- C4: in the committed sale each item's `costAtSale` is stamped from the
freshly read document — `0` for untracked (`"PAN"`) items, the document's
`cost` for tracked ones — and untracked items cause no stock write: products
not named by any tracked line are untouched, and an all-untracked cart
leaves the store exactly as it was. -/
theorem cobrar_costAtSale (store : List Product) (sales : List SaleRecord)
    (cart : List SaleItem) (today user : String) (store2 : List Product)
    (sales2 : List SaleRecord)
    (h : cobrar store sales cart today user = .ok (store2, sales2)) :
    ∃ saleRec, sales2 = sales ++ [saleRec] ∧
      saleRec.items = cart.map (fun it => { it with costAtSale := some (stampCost store it) }) ∧
      (∀ c : String, (∀ it ∈ cart, it.code = "PAN" ∨ it.code ≠ c) →
        storeGet store2 c = storeGet store c) ∧
      ((∀ it ∈ cart, it.code = "PAN") → store2 = store) := by
  obtain ⟨hne, items, hv, hstore2, hsales2⟩ := cobrar_ok_elim h
  refine ⟨_, hsales2, ?_, ?_, ?_⟩
  · show mkSaleItems items = _
    rw [validateItems_ok_eq hv]
    unfold mkSaleItems
    rw [List.map_map]
    rfl
  · intro c hc
    rw [hstore2]
    exact applyAux_untouched c cart store hc
  · intro hall
    rw [hstore2]
    exact applyAux_allPan cart store hall

/-- Witness for `cobrar_costAtSale` at Scenario D: an untracked line priced
by `gramsToPrice 250 3200 = 800` commits with `costAtSale = 0` and the store
untouched. -/
theorem cobrar_costAtSale_witness :
    gramsToPrice 250 3200 = 800 ∧
    cobrar demoProducts [] [⟨"PAN", "Pan", 800, 1, none⟩] "d" "u"
      = .ok (demoProducts, [⟨some "d", "u", [⟨"PAN", "Pan", 800, 1, some 0⟩], 800⟩]) ∧
    (∃ saleRec, [(⟨some "d", "u", [⟨"PAN", "Pan", 800, 1, some 0⟩], 800⟩ : SaleRecord)]
        = [] ++ [saleRec] ∧
      saleRec.items = [(⟨"PAN", "Pan", 800, 1, none⟩ : SaleItem)].map
        (fun it => { it with costAtSale := some (stampCost demoProducts it) }) ∧
      (∀ c : String, (∀ it ∈ [(⟨"PAN", "Pan", 800, 1, none⟩ : SaleItem)],
          it.code = "PAN" ∨ it.code ≠ c) →
        storeGet demoProducts c = storeGet demoProducts c) ∧
      ((∀ it ∈ [(⟨"PAN", "Pan", 800, 1, none⟩ : SaleItem)], it.code = "PAN") →
        demoProducts = demoProducts)) := by
  have hok : cobrar demoProducts [] [⟨"PAN", "Pan", 800, 1, none⟩] "d" "u"
      = .ok (demoProducts, [⟨some "d", "u", [⟨"PAN", "Pan", 800, 1, some 0⟩], 800⟩]) := by
    with_unfolding_all decide
  exact ⟨by with_unfolding_all decide, hok,
    cobrar_costAtSale demoProducts [] _ "d" "u" _ _ hok⟩

/-! ### C9: untracked (PAN) additions and the undo stack -/

theorem undoApplyAdd_pan_filter (c : String) (q : ℚ) (hc : c ≠ "PAN") :
    ∀ cart : List SaleItem,
      (undoApplyAdd c q cart).filter (fun i => i.code == "PAN")
        = cart.filter (fun i => i.code == "PAN") := by
  intro cart
  induction cart with
  | nil => rfl
  | cons x rest ih =>
    by_cases hxc : x.code = c
    · have hxp : (x.code == "PAN") = false := by
        rw [hxc]
        simpa using hc
      by_cases hle : x.qty - q ≤ 0
      · simp only [undoApplyAdd, if_pos hxc, if_pos hle]
        rw [List.filter_filter]
        apply List.filter_congr
        intro i _
        by_cases hip : i.code = "PAN"
        · have : (i.code != c) = true := by
            rw [hip]
            simpa using fun hh => hc hh.symm
          simp only [hip, this]
          simp
          exact fun hh => hc hh.symm
        · simp [hip]
      · simp only [undoApplyAdd, if_pos hxc, if_neg hle, List.filter_cons]
        simp [hxp]
    · simp only [undoApplyAdd, if_neg hxc, List.filter_cons]
      by_cases hxp : x.code = "PAN" <;> simp [hxp, ih]

/-- C9 (amended): the PAN modal's confirm adds one untracked line with
quantity 1, priced either at the entered amount or at
`round(grams/1000 ⋅ pricePerKg)`, touching neither the catalog nor the undo
stack; and as long as no undo entry carries the code `"PAN"` — which holds
whenever the catalog has no product with the reserved code `"PAN"`, since
`addByCode` is the only push site — `undo()` leaves the untracked (`"PAN"`)
lines of the cart exactly as they are. -/
theorem addUntracked_undo_spec :
    (∀ (p : ℚ) (st : CartState), 0 < p →
      panModalAdd .precio p 0 0 st
        = ⟨{ code := "PAN", name := "Pan", price := p, qty := 1, costAtSale := none } :: st.cart,
           st.undoStack⟩) ∧
    (∀ (g kg : ℚ) (st : CartState), 0 < g →
      panModalAdd .peso 0 g kg st
        = ⟨{ code := "PAN", name := "Pan", price := gramsToPrice g kg, qty := 1,
             costAtSale := none } :: st.cart, st.undoStack⟩) ∧
    (∀ st : CartState, (∀ e ∈ st.undoStack, e.code ≠ "PAN") →
      (undo st).cart.filter (fun i => i.code == "PAN")
        = st.cart.filter (fun i => i.code == "PAN")) ∧
    (∀ (products : List Product) (st : CartState) (code : String) (qty : ℚ) (st' : CartState),
      (∀ p ∈ products, p.code ≠ "PAN") → (∀ e ∈ st.undoStack, e.code ≠ "PAN") →
      addByCode products st code qty = .ok st' →
      ∀ e ∈ st'.undoStack, e.code ≠ "PAN") := by
  refine ⟨?_, ?_, ?_, ?_⟩
  · intro p st hp
    obtain ⟨cart0, stack0⟩ := st
    simp [panModalAdd, if_pos hp, addUntracked]
  · intro g kg st hg
    obtain ⟨cart0, stack0⟩ := st
    simp [panModalAdd, if_pos hg, addUntracked]
  · intro st hstack
    obtain ⟨cart0, stack0⟩ := st
    cases stack0 with
    | nil => rfl
    | cons e rest =>
      simp only [undo]
      exact undoApplyAdd_pan_filter e.code e.qty (hstack e (List.mem_cons_self _ _)) cart0
  · intro products st code qty st' hcat hst hok
    cases hm : mapGet products code.trim with
    | none =>
      unfold addByCode at hok
      rw [hm] at hok
      cases hok
    | some prod =>
      obtain ⟨_, hstack, _⟩ := addByCode_ok hm hok
      rw [hstack]
      intro e he
      rcases List.mem_cons.mp he with rfl | he'
      · intro hcode
        simp only at hcode
        have htrim : code.trim = "PAN" := by
          rw [hcode]
          with_unfolding_all decide
        rw [htrim] at hm
        exact hcat prod (mapGet_mem hm) (mapGet_code hm)
      · exact hst e he'

/-- Witness for `addUntracked_undo_spec`: the modal adds the 800-peso line
without touching the undo stack, and with only non-PAN entries on the stack
an `undo()` leaves the untracked line in place. -/
theorem addUntracked_undo_spec_witness :
    (0 : ℚ) < 800 ∧
    panModalAdd .precio 800 0 0 ⟨[], [⟨"001", 1⟩]⟩
      = ⟨[⟨"PAN", "Pan", 800, 1, none⟩], [⟨"001", 1⟩]⟩ ∧
    (undo ⟨[⟨"PAN", "Pan", 800, 1, none⟩], [⟨"001", 1⟩]⟩).cart.filter
        (fun i => i.code == "PAN")
      = ([⟨"PAN", "Pan", 800, 1, none⟩] : List SaleItem).filter (fun i => i.code == "PAN") := by
  refine ⟨by norm_num, ?_, ?_⟩
  · exact addUntracked_undo_spec.1 800 ⟨[], [⟨"001", 1⟩]⟩ (by norm_num)
  · exact addUntracked_undo_spec.2.2.1 ⟨[⟨"PAN", "Pan", 800, 1, none⟩], [⟨"001", 1⟩]⟩
      (by with_unfolding_all decide)

/-- Counterexample to C9 as frozen: with a catalog product whose code is the
sentinel `"PAN"`, a reachable sequence — scan `"PAN"` (pushing an undo
entry), then add an untracked line through the modal — ends with `undo()`
removing the modal-added untracked line (together with the scanned one), so
`undo()` can remove an untracked line even though untracked additions push
nothing. -/
theorem addUntracked_undo_spec_counterexample :
    addByCode [⟨"PAN", "PanCat", 100, 0, 10⟩] ⟨[], []⟩ "PAN" 1
      = .ok ⟨[⟨"PAN", "PanCat", 100, 1, none⟩], [⟨"PAN", 1⟩]⟩ ∧
    panModalAdd .precio 800 0 0 ⟨[⟨"PAN", "PanCat", 100, 1, none⟩], [⟨"PAN", 1⟩]⟩
      = ⟨[⟨"PAN", "Pan", 800, 1, none⟩, ⟨"PAN", "PanCat", 100, 1, none⟩], [⟨"PAN", 1⟩]⟩ ∧
    undo ⟨[⟨"PAN", "Pan", 800, 1, none⟩, ⟨"PAN", "PanCat", 100, 1, none⟩], [⟨"PAN", 1⟩]⟩
      = ⟨[], []⟩ := by
  refine ⟨?_, ?_, ?_⟩
  · with_unfolding_all decide
  · with_unfolding_all decide
  · with_unfolding_all decide

/-! ### C8: the balance aggregator -/

theorem DayAcc.add_def (a b : DayAcc) : a + b = addAcc a b := rfl

theorem DayAcc.zero_def : (0 : DayAcc) = ⟨0, 0, 0⟩ := rfl

theorem dayAccSum_cost : ∀ l : List DayAcc, l.sum.cost = (l.map DayAcc.cost).sum := by
  intro l
  induction l with
  | nil => rfl
  | cons a l ih => simp [List.sum_cons, DayAcc.add_def, addAcc, ih]

theorem dayAccSum_profit : ∀ l : List DayAcc, l.sum.profit = (l.map DayAcc.profit).sum := by
  intro l
  induction l with
  | nil => rfl
  | cons a l ih => simp [List.sum_cons, DayAcc.add_def, addAcc, ih]

theorem dayAccSum_total : ∀ l : List DayAcc, l.sum.total = (l.map DayAcc.total).sum := by
  intro l
  induction l with
  | nil => rfl
  | cons a l ih => simp [List.sum_cons, DayAcc.add_def, addAcc, ih]

theorem sum_sub_map {α : Type} (f g : α → ℚ) :
    ∀ l : List α, (l.map (fun x => f x - g x)).sum = (l.map f).sum - (l.map g).sum := by
  intro l
  induction l with
  | nil => simp
  | cons x xs ih =>
    simp only [List.map_cons, List.sum_cons, ih]
    ring

theorem saleDayAcc_eq (s : SaleRecord) :
    saleDayAcc s = ⟨saleCost s, saleRevenue s - saleCost s, saleRevenue s⟩ := by
  have key : ∀ (l : List SaleItem) (a : DayAcc),
      l.foldl
        (fun acc it =>
          let costUnit := it.costAtSale.getD 0
          let rev := it.price * it.qty
          let cost := costUnit * it.qty
          (⟨acc.cost + cost, acc.profit + (rev - cost), acc.total + rev⟩ : DayAcc)) a
        = ⟨a.cost + (l.map (fun it => it.costAtSale.getD 0 * it.qty)).sum,
           a.profit + ((l.map (fun it => it.price * it.qty)).sum
             - (l.map (fun it => it.costAtSale.getD 0 * it.qty)).sum),
           a.total + (l.map (fun it => it.price * it.qty)).sum⟩ := by
    intro l
    induction l with
    | nil =>
      intro a
      obtain ⟨a1, a2, a3⟩ := a
      simp
    | cons x xs ih =>
      intro a
      simp only [List.foldl_cons, List.map_cons, List.sum_cons]
      rw [ih]
      dsimp only
      simp only [DayAcc.mk.injEq]
      refine ⟨by ring, by ring, by ring⟩
  unfold saleDayAcc saleRevenue saleCost
  rw [key]
  simp

theorem bumpKey_lookup : ∀ (m : List (String × DayAcc)) (k k' : String) (d : DayAcc),
    alookup (bumpKey m k d) k'
      = if k' = k then some ((alookup m k).getD 0 + d) else alookup m k' := by
  intro m
  induction m with
  | nil =>
    intro k k' d
    by_cases h : k' = k
    · subst h
      simp [bumpKey, alookup, List.find?_cons, DayAcc.zero_def, DayAcc.add_def, addAcc]
    · have hbeq : (k == k') = false := by
        simp
        exact fun hh => h hh.symm
      simp [bumpKey, alookup, List.find?_cons, hbeq, h]
  | cons e rest ih =>
    intro k k' d
    obtain ⟨k0, a0⟩ := e
    by_cases h0 : k0 = k
    · subst h0
      by_cases h : k' = k0
      · subst h
        simp [bumpKey, alookup, List.find?_cons, DayAcc.add_def]
      · have hbeq : (k0 == k') = false := by
          simp
          exact fun hh => h hh.symm
        simp [bumpKey, alookup, List.find?_cons, hbeq, h]
    · by_cases h : k' = k0
      · subst h
        have hne : ¬ k' = k := fun hh => h0 (hh.symm ▸ rfl)
        simp [bumpKey, alookup, List.find?_cons, h0, hne]
      · have hbeq : (k0 == k') = false := by
          simp
          exact fun hh => h hh.symm
        have hbeq2 : (k0 == k) = false := by
          simp
          exact h0
        simp only [bumpKey, if_neg h0, alookup, List.find?_cons, hbeq]
        have := ih k k' d
        simp only [alookup] at this
        rw [this]
        by_cases hk : k' = k
        · subst hk
          simp [hbeq2]
        · simp [hk]

theorem bumpKey_keys : ∀ (m : List (String × DayAcc)) (k : String) (d : DayAcc),
    keysOf (bumpKey m k d)
      = if k ∈ keysOf m then keysOf m else keysOf m ++ [k] := by
  intro m
  induction m with
  | nil =>
    intro k d
    simp [bumpKey, keysOf]
  | cons e rest ih =>
    intro k d
    obtain ⟨k0, a0⟩ := e
    by_cases h0 : k0 = k
    · subst h0
      simp [bumpKey, keysOf]
    · have : (k ∈ keysOf ((k0, a0) :: rest)) = (k ∈ keysOf rest) := by
        simp [keysOf]
        intro hh
        exact absurd hh.symm h0
      simp only [bumpKey, if_neg h0]
      by_cases hk : k ∈ keysOf rest
      · have hk2 : k ∈ keysOf ((k0, a0) :: rest) := by
          simp [keysOf] at hk ⊢
          exact Or.inr hk
        simp only [if_pos hk2]
        simp only [keysOf, List.map_cons]
        show Prod.fst (k0, a0) :: keysOf (bumpKey rest k d) = Prod.fst (k0, a0) :: keysOf rest
        rw [ih, if_pos hk]
      · have hk2 : k ∉ keysOf ((k0, a0) :: rest) := by
          simp [keysOf] at hk ⊢
          exact ⟨fun hh => absurd hh.symm h0, hk⟩
        simp only [if_neg hk2]
        simp only [keysOf, List.map_cons]
        show Prod.fst (k0, a0) :: keysOf (bumpKey rest k d)
          = Prod.fst (k0, a0) :: keysOf rest ++ [k]
        rw [ih, if_neg hk, List.cons_append]

theorem foldBump_lookup (today : String) :
    ∀ (sales : List SaleRecord) (m : List (String × DayAcc)) (d : String),
      alookup (sales.foldl (fun m s => bumpKey m (saleKey today s) (saleDayAcc s)) m) d
        = if (sales.filter (fun s => saleKey today s == d)) = []
          then alookup m d
          else some ((alookup m d).getD 0
            + ((sales.filter (fun s => saleKey today s == d)).map saleDayAcc).sum) := by
  intro sales
  induction sales with
  | nil =>
    intro m d
    simp
  | cons s ss ih =>
    intro m d
    have hstep : (s :: ss).foldl (fun m s => bumpKey m (saleKey today s) (saleDayAcc s)) m
        = ss.foldl (fun m s => bumpKey m (saleKey today s) (saleDayAcc s))
            (bumpKey m (saleKey today s) (saleDayAcc s)) := rfl
    rw [hstep, ih]
    by_cases hkey : saleKey today s = d
    · have hbeq : (saleKey today s == d) = true := by simp [hkey]
      have hfil : ((s :: ss).filter (fun s => saleKey today s == d))
          = s :: ss.filter (fun s => saleKey today s == d) := by
        simp [List.filter_cons, hbeq]
      have hlk : alookup (bumpKey m (saleKey today s) (saleDayAcc s)) d
          = some ((alookup m d).getD 0 + saleDayAcc s) := by
        rw [bumpKey_lookup, if_pos hkey.symm, hkey]
      rw [hfil, hlk]
      by_cases hss : ss.filter (fun s => saleKey today s == d) = []
      · rw [if_pos hss, hss]
        simp
      · rw [if_neg hss,
          if_neg (show ¬ (s :: ss.filter (fun s => saleKey today s == d)) = [] by simp)]
        simp [add_assoc]
    · have hbeq : (saleKey today s == d) = false := by simp [hkey]
      have hfil : ((s :: ss).filter (fun s => saleKey today s == d))
          = ss.filter (fun s => saleKey today s == d) := by
        simp [List.filter_cons, hbeq]
      have hlk : alookup (bumpKey m (saleKey today s) (saleDayAcc s)) d = alookup m d := by
        rw [bumpKey_lookup, if_neg (fun hh => hkey hh.symm)]
      rw [hfil, hlk]

theorem buildBalanceMap_lookup (today : String) (sales : List SaleRecord) (d : String) :
    alookup (buildBalanceMap today sales) d
      = if (sales.filter (fun s => saleKey today s == d)) = [] then none
        else some (dayAccOf today d sales) := by
  unfold buildBalanceMap dayAccOf
  rw [foldBump_lookup]
  by_cases h : sales.filter (fun s => saleKey today s == d) = [] <;>
    simp [h, alookup]

theorem alookup_eq_none {m : List (String × DayAcc)} {d : String} :
    alookup m d = none ↔ d ∉ keysOf m := by
  simp only [alookup, Option.map_eq_none', List.find?_eq_none, keysOf, List.mem_map]
  constructor
  · rintro h ⟨e, he, hd⟩
    exact h e he (by simp [hd])
  · intro h e he hbeq
    exact h ⟨e, he, by simpa using hbeq⟩

theorem buildMap_nodup (today : String) (sales : List SaleRecord) :
    (keysOf (buildBalanceMap today sales)).Nodup := by
  suffices h : ∀ (l : List SaleRecord) (m : List (String × DayAcc)),
      (keysOf m).Nodup →
      (keysOf (l.foldl (fun m s => bumpKey m (saleKey today s) (saleDayAcc s)) m)).Nodup by
    exact h sales [] (by simp [keysOf])
  intro l
  induction l with
  | nil => intro m hm; exact hm
  | cons s ss ih =>
    intro m hm
    have hstep : (s :: ss).foldl (fun m s => bumpKey m (saleKey today s) (saleDayAcc s)) m
        = ss.foldl (fun m s => bumpKey m (saleKey today s) (saleDayAcc s))
            (bumpKey m (saleKey today s) (saleDayAcc s)) := rfl
    rw [hstep]
    refine ih _ ?_
    rw [bumpKey_keys]
    by_cases hk : saleKey today s ∈ keysOf m
    · rw [if_pos hk]
      exact hm
    · rw [if_neg hk]
      simp [List.nodup_append, hm, hk]

theorem alookup_of_mem {m : List (String × DayAcc)} (hnd : (keysOf m).Nodup)
    {d : String} {a : DayAcc} (hmem : (d, a) ∈ m) : alookup m d = some a := by
  induction m with
  | nil => cases hmem
  | cons e rest ih =>
    obtain ⟨k0, a0⟩ := e
    rcases List.mem_cons.mp hmem with heq | hmem'
    · cases heq
      simp [alookup, List.find?_cons]
    · rw [keysOf, List.map_cons] at hnd
      have hnd2 := List.nodup_cons.mp hnd
      have hk0 : k0 ≠ d := by
        intro h
        subst h
        exact hnd2.1 (List.mem_map.mpr ⟨(k0, a), hmem', rfl⟩)
      have hbeq : (k0 == d) = false := by
        simp
        exact hk0
      simp only [alookup, List.find?_cons, hbeq]
      exact ih hnd2.2 hmem'

theorem mem_of_alookup {m : List (String × DayAcc)} {d : String} {a : DayAcc}
    (h : alookup m d = some a) : (d, a) ∈ m := by
  unfold alookup at h
  cases hf : m.find? (fun e => e.1 == d) with
  | none => rw [hf] at h; cases h
  | some e =>
    rw [hf] at h
    obtain ⟨e1, e2⟩ := e
    have he : e1 = d := by simpa using List.find?_some hf
    have ha : e2 = a := by simpa using h
    have hm := List.mem_of_find?_eq_some hf
    rw [← he, ← ha]
    exact hm

theorem dayAccOf_components (today d : String) (sales : List SaleRecord) :
    (dayAccOf today d sales).total
        = ((sales.filter (fun s => saleKey today s == d)).map saleRevenue).sum ∧
    (dayAccOf today d sales).cost
        = ((sales.filter (fun s => saleKey today s == d)).map saleCost).sum ∧
    (dayAccOf today d sales).profit
        = (dayAccOf today d sales).total - (dayAccOf today d sales).cost := by
  have htotal : (fun s => (saleDayAcc s).total) = saleRevenue := by
    funext s
    rw [saleDayAcc_eq]
  have hcost : (fun s => (saleDayAcc s).cost) = saleCost := by
    funext s
    rw [saleDayAcc_eq]
  have hprofit : (fun s => (saleDayAcc s).profit)
      = fun s => saleRevenue s - saleCost s := by
    funext s
    rw [saleDayAcc_eq]
  refine ⟨?_, ?_, ?_⟩
  · rw [dayAccOf, dayAccSum_total, List.map_map]
    rw [show (DayAcc.total ∘ saleDayAcc) = saleRevenue from htotal]
  · rw [dayAccOf, dayAccSum_cost, List.map_map]
    rw [show (DayAcc.cost ∘ saleDayAcc) = saleCost from hcost]
  · rw [dayAccOf, dayAccSum_profit, dayAccSum_total, dayAccSum_cost, List.map_map,
      List.map_map, List.map_map]
    rw [show (DayAcc.profit ∘ saleDayAcc) = fun s => saleRevenue s - saleCost s from hprofit,
      show (DayAcc.total ∘ saleDayAcc) = saleRevenue from htotal,
      show (DayAcc.cost ∘ saleDayAcc) = saleCost from hcost]
    exact sum_sub_map saleRevenue saleCost _

theorem buildMap_mem_mono (today today' : String) {sales sales' : List SaleRecord}
    (hperm : sales.Perm sales')
    (hkey : ∀ s ∈ sales', saleKey today' s = saleKey today s) :
    ∀ d a, (d, a) ∈ buildBalanceMap today sales → (d, a) ∈ buildBalanceMap today' sales' := by
  intro d a hmem
  have hfil_eq : sales'.filter (fun s => saleKey today' s == d)
      = sales'.filter (fun s => saleKey today s == d) :=
    List.filter_congr (fun s hs => by rw [hkey s hs])
  have hfperm : (sales.filter (fun s => saleKey today s == d)).Perm
      (sales'.filter (fun s => saleKey today' s == d)) := by
    rw [hfil_eq]
    exact hperm.filter _
  have hl := alookup_of_mem (buildMap_nodup today sales) hmem
  rw [buildBalanceMap_lookup] at hl
  by_cases hfil : sales.filter (fun s => saleKey today s == d) = []
  · rw [if_pos hfil] at hl
    cases hl
  · rw [if_neg hfil] at hl
    have ha : a = dayAccOf today d sales := by
      injection hl with hl
      exact hl.symm
    have hfil2 : ¬ sales'.filter (fun s => saleKey today' s == d) = [] := by
      intro hz
      rw [hz] at hfperm
      exact hfil hfperm.eq_nil
    have hacc : dayAccOf today d sales = dayAccOf today' d sales' := by
      unfold dayAccOf
      exact (hfperm.map saleDayAcc).sum_eq
    apply mem_of_alookup
    rw [buildBalanceMap_lookup, if_neg hfil2, ← hacc, ha]

theorem buildMap_perm (today today' : String) {sales sales' : List SaleRecord}
    (hperm : sales.Perm sales') (hdate : ∀ s ∈ sales, s.localDate ≠ none) :
    (buildBalanceMap today sales).Perm (buildBalanceMap today' sales') := by
  have hkey1 : ∀ s ∈ sales', saleKey today' s = saleKey today s := by
    intro s hs
    have hd := hdate s (hperm.mem_iff.mpr hs)
    cases hld : s.localDate with
    | none => exact absurd hld hd
    | some dd => simp [saleKey, hld]
  have hkey2 : ∀ s ∈ sales, saleKey today s = saleKey today' s := by
    intro s hs
    have hd := hdate s hs
    cases hld : s.localDate with
    | none => exact absurd hld hd
    | some dd => simp [saleKey, hld]
  have hnd1 : (keysOf (buildBalanceMap today sales)).Nodup := buildMap_nodup _ _
  have hnd2 : (keysOf (buildBalanceMap today' sales')).Nodup := buildMap_nodup _ _
  refine (List.perm_ext_iff_of_nodup (List.Nodup.of_map _ hnd1)
    (List.Nodup.of_map _ hnd2)).mpr ?_
  rintro ⟨d, a⟩
  constructor
  · exact buildMap_mem_mono today today' hperm hkey1 d a
  · exact buildMap_mem_mono today' today hperm.symm hkey2 d a

theorem grouped_perm_buildMap (today : String) (sales : List SaleRecord) :
    (grouped today sales).Perm (buildBalanceMap today sales) :=
  List.perm_insertionSort _ _

theorem grouped_pairwise_strict (today : String) (sales : List SaleRecord) :
    (grouped today sales).Pairwise balStrict := by
  have hs : (grouped today sales).Sorted balOrd := List.sorted_insertionSort _ _
  have hp : (grouped today sales).Pairwise balOrd := hs
  have hperm := grouped_perm_buildMap today sales
  have hnd : (List.map Prod.fst (grouped today sales)).Nodup := by
    have h0 : (List.map Prod.fst (buildBalanceMap today sales)).Nodup := buildMap_nodup today sales
    exact ((hperm.map Prod.fst).nodup_iff).mpr h0
  have hne : (grouped today sales).Pairwise (fun a b => a.1 ≠ b.1) :=
    (List.pairwise_map).mp hnd
  exact (hp.and hne).imp (fun h => lt_of_le_of_ne h.1 (Ne.symm h.2))

/-- C8: the daily-balance grouping is a pure, permutation-invariant function
of the sale list — permuting the sales (and changing the irrelevant current
date, used only as a fallback for records without a `localDate`) yields the
identical output — its rows are strictly descending by date, and each row's
totals are exactly the per-day sums: revenue `Σ price⋅qty`, cost
`Σ costAtSale⋅qty`, and profit `revenue − cost` over the sales of that day. -/
theorem computeDailyBalances_spec (today today' : String) (sales sales' : List SaleRecord)
    (hperm : sales.Perm sales') (hdate : ∀ s ∈ sales, s.localDate ≠ none) :
    grouped today sales = grouped today' sales' ∧
    (grouped today sales).Pairwise balStrict ∧
    ∀ d a, (d, a) ∈ grouped today sales →
      a.total = ((sales.filter (fun s => saleKey today s == d)).map saleRevenue).sum ∧
      a.cost = ((sales.filter (fun s => saleKey today s == d)).map saleCost).sum ∧
      a.profit = a.total - a.cost ∧
      ∃ s ∈ sales, saleKey today s = d := by
  refine ⟨?_, grouped_pairwise_strict today sales, ?_⟩
  · have hEperm := buildMap_perm today today' hperm hdate
    have hL : (grouped today sales).Perm (grouped today' sales') :=
      ((grouped_perm_buildMap today sales).trans hEperm).trans
        (grouped_perm_buildMap today' sales').symm
    exact List.eq_of_perm_of_sorted hL (grouped_pairwise_strict today sales)
      (grouped_pairwise_strict today' sales')
  · intro d a hmem
    have hmemE : (d, a) ∈ buildBalanceMap today sales :=
      (grouped_perm_buildMap today sales).mem_iff.mp hmem
    have hl := alookup_of_mem (buildMap_nodup today sales) hmemE
    rw [buildBalanceMap_lookup] at hl
    by_cases hfil : sales.filter (fun s => saleKey today s == d) = []
    · rw [if_pos hfil] at hl
      cases hl
    · rw [if_neg hfil] at hl
      have ha : a = dayAccOf today d sales := by
        injection hl with hl
        exact hl.symm
      obtain ⟨hc1, hc2, hc3⟩ := dayAccOf_components today d sales
      subst ha
      refine ⟨hc1, hc2, hc3, ?_⟩
      obtain ⟨s, hs⟩ := List.exists_mem_of_ne_nil _ hfil
      have hsf := List.mem_filter.mp hs
      exact ⟨s, hsf.1, by simpa using hsf.2⟩

/-- Witness for `computeDailyBalances_spec`: two concrete sales on different
days, permuted and grouped under two different fallback dates, produce the
same strictly descending two-row balance. -/
theorem computeDailyBalances_spec_witness :
    ([demoSale1, demoSale2] : List SaleRecord).Perm [demoSale2, demoSale1] ∧
    (∀ s ∈ ([demoSale1, demoSale2] : List SaleRecord), s.localDate ≠ none) ∧
    grouped "t1" [demoSale1, demoSale2] = grouped "t2" [demoSale2, demoSale1] ∧
    (grouped "t1" [demoSale1, demoSale2]).Pairwise balStrict ∧
    grouped "t1" [demoSale1, demoSale2]
      = [("2026-10-11", ⟨0, 800, 800⟩), ("2026-10-10", ⟨200, 100, 300⟩)] := by
  have hperm : ([demoSale1, demoSale2] : List SaleRecord).Perm [demoSale2, demoSale1] :=
    List.Perm.swap demoSale2 demoSale1 []
  have hdate : ∀ s ∈ ([demoSale1, demoSale2] : List SaleRecord), s.localDate ≠ none := by
    with_unfolding_all decide
  have h := computeDailyBalances_spec "t1" "t2" [demoSale1, demoSale2] [demoSale2, demoSale1]
    hperm hdate
  exact ⟨hperm, hdate, h.1, h.2.1, by with_unfolding_all decide⟩

end POS
